import Mathlib

/-!
A shallow embedding of `main.go` of dayone-to-joplin.

The program reads a Day One export, fetches the tags known to a Joplin
instance, and for every journal entry uploads its photos, posts one note and
links the note to its tags.  Everything lives in `main.go`: `main`, `GetTags`
and `CreateResource`.

Go strings are modelled as lists of code points, the HTTP server as a family
of answers indexed by call number, and the unbounded `for` loop of `GetTags`
by a fuel argument.  What the program prints with `fmt.Printf` is left out.
-/

namespace DayoneToJoplin

/-- Go `string` values, as their sequence of code points. -/
abbrev GoString := List Char

/-! ## The pieces of package `strings` that `main` calls -/

/-- Model of `strings.Index(s, sep)`: the first position at which `sep` starts in `s`. -/
def Index (sep : GoString) : GoString → Option Nat
  | [] => if sep.isPrefixOf [] then some 0 else none
  | c :: cs => if sep.isPrefixOf (c :: cs) then some 0 else (Index sep cs).map (· + 1)

/-- The loop of `strings.Split`: cut at the next separator, continue behind it.
The counter bounds the number of cuts, as `n` does in Go. -/
def splitLoop (sep : GoString) : Nat → GoString → List GoString
  | 0, s => [s]
  | n + 1, s =>
    match Index sep s with
    | none => [s]
    | some m => s.take m :: splitLoop sep n (s.drop (m + sep.length))

/-- Model of `strings.Split(s, sep)` for a non-empty separator.  A string of
length `k` holds at most `k` separators, so `k` cuts are always enough. -/
def Split (s sep : GoString) : List GoString := splitLoop sep s.length s

/-- Model of `strings.Join(elems, sep)`. -/
def Join : List GoString → GoString → GoString
  | [], _ => []
  | [a], _ => a
  | a :: b :: rest, sep => a ++ sep ++ Join (b :: rest) sep

/-- Scan of `strings.Replace` with a negative count: `skip` characters of a
match just replaced are still to be passed over. -/
def replaceScan (old new : GoString) : Nat → GoString → GoString
  | _, [] => []
  | skip + 1, _ :: cs => replaceScan old new skip cs
  | 0, c :: cs =>
    if old.isPrefixOf (c :: cs) then new ++ replaceScan old new (old.length - 1) cs
    else c :: replaceScan old new 0 cs

/-- Model of `strings.Replace(s, old, new, -1)` for a non-empty `old`: every
occurrence of `old`, found left to right without overlap, becomes `new`. -/
def Replace (s old new : GoString) : GoString := replaceScan old new 0 s

/-- Number of positions of `s` at which `pat` starts. -/
def countOccurrences (pat : GoString) : GoString → Nat
  | [] => 0
  | c :: cs => (if pat.isPrefixOf (c :: cs) then 1 else 0) + countOccurrences pat cs

/-- Go's `xs[0]`: out of range on an empty slice. -/
def index0 {α : Type} : List α → Option α
  | [] => none
  | x :: _ => some x

/-- Go's `xs[1:]`: out of range on an empty slice. -/
def sliceFrom1 {α : Type} : List α → Option (List α)
  | [] => none
  | _ :: xs => some xs

/-! ## Title and body of an entry (`main`, lines 156 and 159) -/

/-- Line 156: `strings.Replace(strings.Split(journalEntry.Text, "\n")[0], "# ", "", -1)`. -/
def entryTitle (text : GoString) : Option GoString :=
  (index0 (Split text ['\n'])).map (fun line => Replace line ['#', ' '] [])

/-- Line 159: `strings.Join(strings.Split(journalEntry.Text, "\n")[1:], "\n")`. -/
def entryText (text : GoString) : Option GoString :=
  (sliceFrom1 (Split text ['\n'])).map (fun rest => Join rest ['\n'])

/-- The first line of a text: everything before its first newline. -/
def firstLine (text : GoString) : GoString := text.takeWhile (· ≠ '\n')

/-- The text behind the first newline, empty when there is none. -/
def afterFirstLine (text : GoString) : GoString := (text.dropWhile (· ≠ '\n')).drop 1

/-- The title as the specification words it: the line with only a leading
heading marker `# ` removed. -/
def stripLeadingMarker (line : GoString) : GoString :=
  if ['#', ' '].isPrefixOf line then line.drop 2 else line

/-- Model of `strings.ToLower`: a string of ASCII characters has its letters
`A`..`Z` lowered; any other string is mapped rune by rune through
`unicode.ToLower`, whose table is the parameter `unicodeToLower`. -/
def ToLower (unicodeToLower : Char → Char) (s : GoString) : GoString :=
  if s.all (fun c => c.toNat < 128) then s.map Char.toLower else s.map unicodeToLower

/-! ## The pieces of package `fmt` that `main` calls -/

/-- The digit loop of `fmt`'s integer formatting, least significant digit last.
The counter plays the part of Go's fixed buffer; 20 digits hold any `int`. -/
def decimalDigits : Nat → Nat → GoString
  | 0, _ => []
  | fuel + 1, u =>
    if u < 10 then [Char.ofNat (48 + u)]
    else decimalDigits fuel (u / 10) ++ [Char.ofNat (48 + u % 10)]

/-- Model of the verbs `%d` (`wid = 0`, `zero = false`) and `%02d` (`wid = 2`,
`zero = true`) on an `int`: with the zero flag the digits are padded with
zeros to the width, less one for a minus sign; otherwise with blanks. -/
def fmtInteger (v : Int) (wid : Nat) (zero : Bool) : GoString :=
  let digits := decimalDigits 20 v.natAbs
  let prec := if zero then (if v < 0 then wid - 1 else wid) else 0
  let digits := List.replicate (prec - digits.length) '0' ++ digits
  let out := if v < 0 then '-' :: digits else digits
  List.replicate (wid - out.length) ' ' ++ out

/-! ## Data model (`main.go`, lines 19 to 121) -/

/-- Go `float64` values by their IEEE 754 bit pattern; `main` only copies them. -/
structure Float64 where
  bits : Nat
deriving DecidableEq, Repr

/-- The constant `0.0`. -/
def Float64.zero : Float64 := ⟨0⟩

structure Center where
  Latitude : Float64
  Longitude : Float64
deriving DecidableEq, Repr

structure Region where
  Center : Center
deriving DecidableEq, Repr

structure Location where
  Address : GoString
  AdministrativeArea : GoString
  Country : GoString
  Latitude : Float64
  LocalityName : GoString
  Longitude : Float64
  PlaceName : GoString
  Region : Region
deriving DecidableEq, Repr

/-- The photo record; `FileType` is the Go field `Type`. -/
structure Photo where
  ExposureBiasValue : Float64
  Height : Float64
  Identifier : GoString
  MD5 : GoString
  OrderInEntry : Float64
  FileType : GoString
  Width : Float64
deriving DecidableEq, Repr

/-- A `time.Time` as `encoding/json` decodes it from RFC 3339 text: the civil
date and clock in the zone written in the text, and that zone's offset east of
UTC in seconds. -/
structure Time where
  year : Int
  month : Nat
  day : Nat
  hour : Nat
  minute : Nat
  second : Nat
  offset : Int
deriving DecidableEq, Repr

/-- The fields of `JournalEntry` that `main` reads (`Audios`, `Starred`,
`TimeZone`, `UUID` and `Weather` are decoded and never used). -/
structure JournalEntry where
  CreationDate : Time
  Location : Option Location
  Photos : List Photo
  Tags : List GoString
  Text : GoString
deriving DecidableEq, Repr

structure TagItem where
  ID : GoString
  Title : GoString
deriving DecidableEq, Repr

structure Tags where
  Items : List TagItem
  HasMore : Bool
deriving DecidableEq, Repr

structure Note where
  ParentID : GoString
  Title : GoString
  Body : GoString
  UserCreatedTime : Int
  UserUpdatedTime : Int
  Latitude : Float64
  Longitude : Float64
deriving DecidableEq, Repr

structure NoteResponse where
  ID : GoString
deriving DecidableEq, Repr

structure TagResponse where
  ID : GoString
deriving DecidableEq, Repr

structure ResourceResponse where
  ID : GoString
  Title : GoString
  Mime : GoString
  Filename : GoString
  FileExtension : GoString
  Size : Int
deriving DecidableEq, Repr

/-! ## Package `time` -/

/-- Leap years of the proleptic Gregorian calendar. -/
def isLeap (year : Int) : Bool :=
  year % 4 = 0 && (year % 100 ≠ 0 || year % 400 = 0)

/-- Days of a common year before the first of each month. -/
def daysBefore (month : Nat) : Int :=
  match month with
  | 1 => 0
  | 2 => 31
  | 3 => 59
  | 4 => 90
  | 5 => 120
  | 6 => 151
  | 7 => 181
  | 8 => 212
  | 9 => 243
  | 10 => 273
  | 11 => 304
  | 12 => 334
  | _ => 365

/-- Days from 1970-01-01 to the first of January of `year`. -/
def daysSinceEpoch (year : Int) : Int :=
  365 * (year - 1) + (year - 1) / 4 - (year - 1) / 100 + (year - 1) / 400 - 719162

def Time.Year (t : Time) : Int := t.year

def Time.Month (t : Time) : Nat := t.month

def Time.Day (t : Time) : Nat := t.day

/-- Model of `Time.Unix`: seconds since 1970-01-01T00:00:00Z, computed as
`time.Date` does from the days before the year, the days before the month, the
leap day, the day of the month and the clock, less the zone offset. -/
def Time.Unix (t : Time) : Int :=
  let d := daysSinceEpoch t.year + daysBefore t.month
    + (if isLeap t.year && decide (3 ≤ t.month) then 1 else 0) + ((t.day : Int) - 1)
  d * 86400 + (t.hour * 3600 + t.minute * 60 + t.second : Nat) - t.offset

/-- Two's complement wrap-around of `int64` arithmetic. -/
def wrapInt64 (x : Int) : Int := (x + 2 ^ 63) % 2 ^ 64 - 2 ^ 63

/-- The dates an export can hold: RFC 3339 years `0000` to `9999`, a month, a
day and a clock in range, a zone offset of at most twenty-five hours. -/
def Time.representable (t : Time) : Prop :=
  0 ≤ t.year ∧ t.year ≤ 9999 ∧ 1 ≤ t.month ∧ t.month ≤ 12 ∧ 1 ≤ t.day ∧ t.day ≤ 31 ∧
    t.hour ≤ 23 ∧ t.minute ≤ 59 ∧ t.second ≤ 59 ∧ -90000 ≤ t.offset ∧ t.offset ≤ 90000

/-- The zero-padded `YYYY-MM-DD` rendering the specification speaks of: four
digits of the year, two of the month, two of the day. -/
def isoDate (year month day : Nat) : GoString :=
  [Char.ofNat (48 + year / 1000 % 10), Char.ofNat (48 + year / 100 % 10),
    Char.ofNat (48 + year / 10 % 10), Char.ofNat (48 + year % 10), '-',
    Char.ofNat (48 + month / 10 % 10), Char.ofNat (48 + month % 10), '-',
    Char.ofNat (48 + day / 10 % 10), Char.ofNat (48 + day % 10)]

/-! ## The note of an entry (`main`, lines 171 to 199) -/

/-- Lines 172 to 181: an entry without location gets one whose region is
centred at `0.0`, `0.0`; the fields not written are Go zero values. -/
def defaultLocation (location : Option Location) : Location :=
  match location with
  | some l => l
  | none =>
    { Address := [], AdministrativeArea := [], Country := [], Latitude := Float64.zero,
      LocalityName := [], Longitude := Float64.zero, PlaceName := [],
      Region := { Center := { Latitude := Float64.zero, Longitude := Float64.zero } } }

/-- Line 187: `fmt.Sprintf("%d-%02d-%02d %s", date.Year(), date.Month(), date.Day(), title)`. -/
def datedTitle (date : Time) (title : GoString) : GoString :=
  fmtInteger date.Year 0 false ++ ['-'] ++ fmtInteger date.Month 2 true ++ ['-']
    ++ fmtInteger date.Day 2 true ++ [' '] ++ title

/-- Lines 171 to 199: the note built from an entry, the title derived on line
156 and the text left by the photo loop. -/
def noteFor (notebook : GoString) (journalEntry : JournalEntry) (title text : GoString) : Note :=
  let location := defaultLocation journalEntry.Location
  let date := journalEntry.CreationDate
  let title := datedTitle date title
  { ParentID := notebook
    Title := title
    Body := text
    UserCreatedTime := wrapInt64 (journalEntry.CreationDate.Unix * 1000)
    UserUpdatedTime := wrapInt64 (journalEntry.CreationDate.Unix * 1000)
    Latitude := location.Region.Center.Latitude
    Longitude := location.Region.Center.Longitude }

/-! ## The world outside: errors, the server, the calls made -/

/-- The failures `main` can meet; Go compares none of them. -/
inductive Error
  | file
  | network
  | decode
  | status (body : GoString)
  | indexOutOfRange
deriving DecidableEq, Repr

/-- The body of the answer to `POST /notes` and what `json.Unmarshal` makes of it. -/
structure NoteReply where
  body : GoString
  decoded : Except Error NoteResponse

/-- What the world answers.  Calls of one kind are answered in the order they
are made: `tagsPage p` to the request for page `p` of the tags (asked at most
once), `resource k`, `note k`, `tag k` and `link k` to the `k`-th call (from
zero) of `CreateResource`, `POST /notes`, `POST /tags` and
`POST /tags/<id>/notes`.  An `error` stands for every way the call can fail
between building the request and decoding the answer (a malformed URL, the
transport, reading the body, a status that is checked, decoding); the status
is checked for `CreateResource` and `POST /tags` only. -/
structure Server where
  tagsPage : Nat → Except Error Tags
  resource : Nat → Except Error ResourceResponse
  note : Nat → Except Error NoteReply
  tag : Nat → Except Error TagResponse
  link : Nat → Except Error Unit

/-- One call to the outside. -/
inductive Call
  | getTags (page : Nat)
  | createResource (photo : Photo)
  | createNote (note : Note)
  | createTag (title : GoString)
  | linkTag (tagID : GoString) (body : GoString)
deriving DecidableEq, Repr

/-- The calls made so far, oldest first, and how many of each answered kind. -/
structure Run where
  calls : List Call
  resources : Nat
  notes : Nat
  tags : Nat
  links : Nat
deriving DecidableEq, Repr

/-- Nothing has happened yet. -/
def Run.start : Run := { calls := [], resources := 0, notes := 0, tags := 0, links := 0 }

/-- How a piece of `main` ends: it runs to its end, or the process panics, or
it leaves the fragment of package `regexp` that is modelled. -/
inductive Outcome (α : Type)
  | done (value : α) (run : Run)
  | panic (err : Error) (run : Run)
  | unmodelled

/-! ## `GetTags` (lines 307 to 350) -/

/-- The `for` loop of `GetTags`, lines 316 to 347, for at most `fuel` rounds;
`none` when the rounds are used up.  The result is the pair `GetTags` returns
and the calls made. -/
def getTagsLoop (srv : Server) : Nat → Nat → Tags → Run → Option ((Tags × Option Error) × Run)
  | 0, _, _, _ => none
  | fuel + 1, page, tags, run =>
    let page := page + 1
    let run := { run with calls := run.calls ++ [Call.getTags page] }
    match srv.tagsPage page with
    | .error err => some ((tags, some err), run)
    | .ok tagPage =>
      let tags := { tags with Items := tags.Items ++ tagPage.Items }
      if !tagPage.HasMore then some ((tags, none), run)
      else getTagsLoop srv fuel page tags run

/-- `GetTags(host, token)`: `tags` starts as the zero value, `page` at `0`. -/
def GetTags (srv : Server) (fuel : Nat) (run : Run) : Option ((Tags × Option Error) × Run) :=
  getTagsLoop srv fuel 0 { Items := [], HasMore := false } run

/-- The items of the `count` pages behind page `first`, in page order. -/
def concatPages (pages : Nat → Tags) (first : Nat) : Nat → List TagItem
  | 0 => []
  | count + 1 => (pages (first + 1)).Items ++ concatPages pages (first + 1) count

/-! ## The photo loop (lines 161 to 169) -/

/-- The text the expression of line 167 matches when the identifier spliced
into it is made of letters and digits: the placeholder of that photo. -/
def placeholder (identifier : GoString) : GoString :=
  ['!', '[', ']', '(', 'd', 'a', 'y', 'o', 'n', 'e', '-', 'm', 'o', 'm', 'e', 'n', 't', ':', '/', '/']
    ++ identifier ++ [')']

/-- Line 168: `fmt.Sprintf("![](:/%s)", resource.ID)`. -/
def resourceRef (id : GoString) : GoString := ['!', '[', ']', '(', ':', '/'] ++ id ++ [')']

/-- Lines 167 and 168, `regexp.MustCompile(...).ReplaceAllString(text, repl)`.
The identifier enters the expression unescaped and `$` is special in the
replacement, so the call is modelled where both are inert: an identifier of
letters and digits makes the expression a literal, and a replacement without
`$` is copied as it is.  There every match, found left to right without
overlap, is replaced; elsewhere the model gives `none`. -/
def replacePlaceholder (identifier repl text : GoString) : Option GoString :=
  if identifier.all Char.isAlphanum && !repl.contains '$' then
    some (Replace text (placeholder identifier) repl)
  else none

/-- Lines 161 to 169: upload each photo, then rewrite its placeholder. -/
def photoLoop (srv : Server) : List Photo → GoString → Run → Outcome GoString
  | [], text, run => .done text run
  | photo :: rest, text, run =>
    let run1 := { run with calls := run.calls ++ [Call.createResource photo],
                           resources := run.resources + 1 }
    match srv.resource run.resources with
    | .error err => .panic err run1
    | .ok resource =>
      match replacePlaceholder photo.Identifier (resourceRef resource.ID) text with
      | none => .unmodelled
      | some text => photoLoop srv rest text run1

/-! ## The tag loop (lines 230 to 303) -/

/-- Lines 234 to 241: the id of the first known tag whose title is `tag`, the
empty string when there is none. -/
def findTagID (tag : GoString) : List TagItem → GoString
  | [] => []
  | existingTag :: rest =>
    if existingTag.Title = tag then existingTag.ID else findTagID tag rest

/-- Lines 231 to 289: lower the title, look it up among the tags fetched at
the start, and create the tag when the lookup gave no id.  `tags` is read and
never written. -/
def resolveTag (unicodeToLower : Char → Char) (srv : Server) (tags : Tags) (tag : GoString)
    (run : Run) : Outcome GoString :=
  let tag := ToLower unicodeToLower tag
  let tagID := findTagID tag tags.Items
  if tagID.length = 0 then
    let run1 := { run with calls := run.calls ++ [Call.createTag tag], tags := run.tags + 1 }
    match srv.tag run.tags with
    | .error err => .panic err run1
    | .ok tagResponse => .done tagResponse.ID run1
  else .done tagID run

/-- Lines 230 to 303: each tag of the entry is resolved and the note linked to it. -/
def tagLoop (unicodeToLower : Char → Char) (srv : Server) (tags : Tags) (noteResponse : GoString) :
    List GoString → Run → Outcome Unit
  | [], run => .done () run
  | tag :: rest, run =>
    match resolveTag unicodeToLower srv tags tag run with
    | .panic err run => .panic err run
    | .unmodelled => .unmodelled
    | .done tagID run =>
      let run1 := { run with calls := run.calls ++ [Call.linkTag tagID noteResponse],
                             links := run.links + 1 }
      match srv.link run.links with
      | .error err => .panic err run1
      | .ok _ => tagLoop unicodeToLower srv tags noteResponse rest run1

/-! ## `main` (lines 123 to 305) -/

/-- The body of the loop over the entries, lines 156 to 303.  `json.Marshal`
of the note cannot fail: its numbers were decoded from JSON or are `0.0`. -/
def processEntry (unicodeToLower : Char → Char) (srv : Server) (notebook : GoString) (tags : Tags)
    (journalEntry : JournalEntry) (run : Run) : Outcome Unit :=
  match entryTitle journalEntry.Text, entryText journalEntry.Text with
  | some title, some text =>
    match photoLoop srv journalEntry.Photos text run with
    | .panic err run => .panic err run
    | .unmodelled => .unmodelled
    | .done text run =>
      let note := noteFor notebook journalEntry title text
      let run1 := { run with calls := run.calls ++ [Call.createNote note], notes := run.notes + 1 }
      match srv.note run.notes with
      | .error err => .panic err run1
      | .ok reply =>
        match reply.decoded with
        | .error err => .panic err run1
        | .ok _ => tagLoop unicodeToLower srv tags reply.body journalEntry.Tags run1
  | _, _ => .panic Error.indexOutOfRange run

/-- The loop over the entries, line 155: the same `tags` for every entry. -/
def entriesLoop (unicodeToLower : Char → Char) (srv : Server) (notebook : GoString) (tags : Tags) :
    List JournalEntry → Run → Outcome Unit
  | [], run => .done () run
  | journalEntry :: rest, run =>
    match processEntry unicodeToLower srv notebook tags journalEntry run with
    | .panic err run => .panic err run
    | .unmodelled => .unmodelled
    | .done _ run => entriesLoop unicodeToLower srv notebook tags rest run

/-- The function `main` from line 139 on.  `parsedData` is what reading and
decoding `AllEntries.json` gave; `fuel` bounds the rounds of `GetTags`, and
the result is `none` when they are used up. -/
def main (unicodeToLower : Char → Char) (srv : Server) (notebook : GoString)
    (parsedData : Except Error (List JournalEntry)) (fuel : Nat) : Option (Outcome Unit) :=
  match parsedData with
  | .error err => some (.panic err Run.start)
  | .ok entries =>
    match GetTags srv fuel Run.start with
    | none => none
    | some ((_, some err), run) => some (.panic err run)
    | some ((tags, none), run) => some (entriesLoop unicodeToLower srv notebook tags entries run)

/-- Words that start with `!`, end with `)` and hold neither character in
between, as the placeholders and the resource references do. -/
def Bracketed (w : GoString) : Prop :=
  ∃ mid, w = '!' :: (mid ++ [')']) ∧ '!' ∉ mid ∧ ')' ∉ mid

/-! ## Example worlds -/

/-- A tag with the given id and title. -/
def tagItem (id title : String) : TagItem := { ID := id.toList, Title := title.toList }

/-- A server with three pages of tags, the third one the last; every other
call fails. -/
def threePageServer : Server where
  tagsPage := fun page =>
    match page with
    | 1 => .ok { Items := [tagItem "a1" "home", tagItem "a2" "work"], HasMore := true }
    | 2 => .ok { Items := [tagItem "b1" "travel"], HasMore := true }
    | 3 => .ok { Items := [tagItem "c1" "food"], HasMore := false }
    | _ => .error Error.network
  resource := fun _ => .error Error.network
  note := fun _ => .error Error.network
  tag := fun _ => .error Error.network
  link := fun _ => .error Error.network

/-- The pages `threePageServer` serves. -/
def threePages (page : Nat) : Tags :=
  match threePageServer.tagsPage page with
  | .ok tags => tags
  | .error _ => { Items := [], HasMore := false }

/-- A server whose first page of tags arrives and whose second request fails. -/
def brokenSecondPageServer : Server where
  tagsPage := fun page =>
    match page with
    | 1 => .ok { Items := [tagItem "a1" "home"], HasMore := true }
    | _ => .error Error.network
  resource := fun _ => .error Error.network
  note := fun _ => .error Error.network
  tag := fun _ => .error Error.network
  link := fun _ => .error Error.network

/-- The page `brokenSecondPageServer` serves. -/
def brokenPages (_ : Nat) : Tags := { Items := [tagItem "a1" "home"], HasMore := true }

/-- A server that knows no tag yet and hands out the ids `id1`, `id2`, ... to
the tags it is asked to create; notes and links succeed. -/
def freshTagServer : Server where
  tagsPage := fun _ => .ok { Items := [], HasMore := false }
  resource := fun _ => .error Error.network
  note := fun _ => .ok { body := "n1".toList, decoded := .ok { ID := "n1".toList } }
  tag := fun k => .ok { ID := 'i' :: 'd' :: decimalDigits 20 (k + 1) }
  link := fun _ => .ok ()

/-- A server that knows the tag `Work`, written with a capital, under the id
`a1`, and hands out `id1`, `id2`, ... to new tags. -/
def capitalTagServer : Server :=
  { freshTagServer with
    tagsPage := fun _ => .ok { Items := [tagItem "a1" "Work"], HasMore := false } }

/-- An entry without photos and location, with the given tags. -/
def taggedEntry (tags : List String) : JournalEntry :=
  { CreationDate := ⟨2023, 3, 5, 12, 0, 0, 0⟩, Location := none, Photos := [],
    Tags := tags.map String.toList, Text := "# Day\ntext".toList }

/-- The create-tag calls among the calls made. -/
def createdTitles : List Call → List GoString
  | [] => []
  | Call.createTag title :: rest => title :: createdTitles rest
  | _ :: rest => createdTitles rest

/-- The tag ids notes were linked to, among the calls made. -/
def linkedIDs : List Call → List GoString
  | [] => []
  | Call.linkTag tagID _ :: rest => tagID :: linkedIDs rest
  | _ :: rest => linkedIDs rest

/-- The calls of a finished piece of the program, none when it did not finish. -/
def Outcome.calls {α : Type} : Outcome α → Option (List Call)
  | .done _ run => some run.calls
  | _ => none

/-- A photo with the given identifier. -/
def photoWith (identifier : String) : Photo :=
  { ExposureBiasValue := Float64.zero, Height := Float64.zero, Identifier := identifier.toList,
    MD5 := "0f".toList, OrderInEntry := Float64.zero, FileType := "jpeg".toList,
    Width := Float64.zero }

/-- A resource with the given id. -/
def resourceWith (id : String) : ResourceResponse :=
  { ID := id.toList, Title := [], Mime := [], Filename := [], FileExtension := [], Size := 0 }

/-- A server that stores the first upload as `r1` and the second as `r2`. -/
def twoUploadServer : Server :=
  { freshTagServer with
    resource := fun k =>
      match k with
      | 0 => .ok (resourceWith "r1")
      | 1 => .ok (resourceWith "r2")
      | _ => .error Error.network }

/-- A server that stores the first upload as `r2` and the second as `r1`. -/
def swappedUploadServer : Server :=
  { freshTagServer with
    resource := fun k =>
      match k with
      | 0 => .ok (resourceWith "r2")
      | 1 => .ok (resourceWith "r1")
      | _ => .error Error.network }

/-- The text left by a finished photo loop. -/
def Outcome.value? {α : Type} : Outcome α → Option α
  | .done value _ => some value
  | _ => none

/-! ## Lemmas on the string functions -/

theorem index_newline (s : GoString) :
    Index ['\n'] s = if '\n' ∈ s then some (firstLine s).length else none := by
  induction s with
  | nil => simp [Index, List.isPrefixOf]
  | cons c cs ih =>
    by_cases h : c = '\n'
    · subst h
      simp [Index, List.isPrefixOf, firstLine]
    · have h' : ('\n' == c) = false := by
        simp only [beq_eq_false_iff_ne, ne_eq]
        exact fun e => h e.symm
      have hm : ('\n' ∈ c :: cs) = ('\n' ∈ cs) := by
        simp only [List.mem_cons, eq_iff_iff]
        constructor
        · rintro (e | e)
          · exact absurd e.symm h
          · exact e
        · exact Or.inr
      simp only [Index, List.isPrefixOf, h', Bool.false_and, Bool.false_eq_true, if_false, ih, hm]
      by_cases hc : '\n' ∈ cs
      · simp [hc, firstLine, h]
      · simp [hc]

theorem index_some_drop (sep : GoString) (s : GoString) (m : Nat)
    (h : Index sep s = some m) : s.drop m = sep ++ s.drop (m + sep.length) := by
  induction s generalizing m with
  | nil =>
    simp only [Index] at h
    split at h
    · rename_i hp
      cases sep with
      | nil => simp
      | cons a as => simp [List.isPrefixOf] at hp
    · simp at h
  | cons c cs ih =>
    simp only [Index] at h
    split at h
    · rename_i hp
      simp only [Option.some.injEq] at h
      subst h
      have hp' := List.isPrefixOf_iff_prefix.mp hp
      obtain ⟨t, ht⟩ := hp'
      rw [List.drop_zero, Nat.zero_add, ← ht, List.drop_left]
    · cases hi : Index sep cs with
      | none => simp [hi] at h
      | some k =>
        simp only [hi, Option.map_some', Option.some.injEq] at h
        subst h
        have := ih k hi
        simpa [Nat.add_right_comm] using this

theorem splitLoop_ne_nil (sep : GoString) (n : Nat) (s : GoString) :
    splitLoop sep n s ≠ [] := by
  cases n with
  | zero => simp [splitLoop]
  | succ n =>
    simp only [splitLoop]
    split <;> simp

theorem join_cons (a : GoString) (l : List GoString) (sep : GoString) (h : l ≠ []) :
    Join (a :: l) sep = a ++ sep ++ Join l sep := by
  cases l with
  | nil => exact absurd rfl h
  | cons b rest => simp [Join]

theorem join_splitLoop (sep : GoString) (n : Nat) (s : GoString) :
    Join (splitLoop sep n s) sep = s := by
  induction n generalizing s with
  | zero => simp [splitLoop, Join]
  | succ n ih =>
    simp only [splitLoop]
    cases hi : Index sep s with
    | none => simp [Join]
    | some m =>
      simp only
      rw [join_cons _ _ _ (splitLoop_ne_nil sep n _), ih, List.append_assoc,
        ← index_some_drop sep s m hi, List.take_append_drop]

theorem firstLine_append (text : GoString) :
    firstLine text ++ text.dropWhile (· ≠ '\n') = text :=
  List.takeWhile_append_dropWhile _ text

theorem take_firstLine (text : GoString) :
    text.take (firstLine text).length = firstLine text := by
  have h : (firstLine text ++ text.dropWhile (· ≠ '\n')).take (firstLine text).length
      = firstLine text := List.take_left _ _
  rwa [firstLine_append] at h

theorem drop_firstLine (text : GoString) :
    text.drop ((firstLine text).length + 1) = afterFirstLine text := by
  have h : (firstLine text ++ text.dropWhile (· ≠ '\n')).drop (firstLine text).length
      = text.dropWhile (· ≠ '\n') := List.drop_left _ _
  rw [firstLine_append] at h
  rw [← List.drop_drop, h, afterFirstLine]

theorem firstLine_no_newline (text : GoString) : '\n' ∉ firstLine text := by
  intro h
  have := List.mem_takeWhile_imp h
  simp at this

theorem no_newline_firstLine (text : GoString) (h : '\n' ∉ text) :
    firstLine text = text ∧ afterFirstLine text = [] := by
  have h1 : ∀ c ∈ text, (decide (c ≠ '\n')) = true := by
    intro c hc
    simp only [ne_eq, decide_not, Bool.not_eq_eq_eq_not, Bool.not_true, decide_eq_false_iff_not]
    intro e
    exact h (e ▸ hc)
  constructor
  · exact List.takeWhile_eq_self_iff.mpr h1
  · rw [afterFirstLine, List.dropWhile_eq_nil_iff.mpr h1]
    rfl

theorem newline_dropWhile (text : GoString) (h : '\n' ∈ text) :
    text.dropWhile (· ≠ '\n') = '\n' :: afterFirstLine text := by
  induction text with
  | nil => simp at h
  | cons c cs ih =>
    by_cases hc : c = '\n'
    · subst hc
      simp [afterFirstLine]
    · have : '\n' ∈ cs := by
        rcases List.mem_cons.mp h with e | e
        · exact absurd e.symm hc
        · exact e
      have ih' := ih this
      simp only [afterFirstLine] at ih' ⊢
      simp only [ne_eq, hc, not_false_eq_true, decide_True, List.dropWhile_cons_of_pos]
      exact ih'

theorem split_newline (text : GoString) :
    ∃ rest, Split text ['\n'] = firstLine text :: rest ∧
      Join rest ['\n'] = afterFirstLine text := by
  unfold Split
  cases hl : text.length with
  | zero =>
    have : text = [] := List.length_eq_zero.mp hl
    subst this
    exact ⟨[], by simp [splitLoop, firstLine], by simp [Join, afterFirstLine]⟩
  | succ n =>
    simp only [splitLoop, index_newline]
    by_cases h : '\n' ∈ text
    · simp only [h, if_true, List.length_singleton]
      refine ⟨splitLoop ['\n'] n (text.drop ((firstLine text).length + 1)), ?_, ?_⟩
      · rw [take_firstLine]
      · rw [join_splitLoop, drop_firstLine]
    · simp only [h, if_false]
      obtain ⟨h1, h2⟩ := no_newline_firstLine text h
      exact ⟨[], by rw [h1], by simp [Join, h2]⟩

theorem splitLoop_lines (n : Nat) (s : GoString) (h : s.length ≤ n) :
    ∀ l ∈ splitLoop ['\n'] n s, '\n' ∉ l := by
  induction n generalizing s with
  | zero =>
    have : s = [] := List.length_eq_zero.mp (Nat.le_zero.mp h)
    subst this
    simp [splitLoop]
  | succ n ih =>
    simp only [splitLoop, index_newline]
    by_cases hm : '\n' ∈ s
    · simp only [hm, if_true, List.length_singleton, List.mem_cons]
      rintro l (e | e)
      · rw [e, take_firstLine]
        exact firstLine_no_newline s
      · refine ih _ ?_ l e
        rw [List.length_drop]
        omega
    · simp only [hm, if_false, List.mem_singleton]
      rintro l rfl
      exact hm

/-! ## Lemmas on replacing -/

theorem replaceScan_skip (old new : GoString) (k : Nat) (s : GoString) :
    replaceScan old new k s = replaceScan old new 0 (s.drop k) := by
  induction s generalizing k with
  | nil => simp [replaceScan]
  | cons c cs ih =>
    cases k with
    | zero => rfl
    | succ k => simp only [replaceScan, List.drop_succ_cons]; exact ih k

theorem replace_nil (old new : GoString) : Replace [] old new = [] := by
  simp [Replace, replaceScan]

theorem replace_cons_match (old new : GoString) (c : Char) (cs : GoString)
    (h : old.isPrefixOf (c :: cs) = true) (hne : old ≠ []) :
    Replace (c :: cs) old new = new ++ Replace ((c :: cs).drop old.length) old new := by
  cases old with
  | nil => exact absurd rfl hne
  | cons a as =>
    simp only [Replace, replaceScan, h, if_true, List.length_cons, Nat.add_sub_cancel,
      List.drop_succ_cons]
    rw [replaceScan_skip]

theorem replace_cons_skip (old new : GoString) (c : Char) (cs : GoString)
    (h : old.isPrefixOf (c :: cs) = false) :
    Replace (c :: cs) old new = c :: Replace cs old new := by
  simp [Replace, replaceScan, h]

theorem replace_append_match (old new rest : GoString) (hne : old ≠ []) :
    Replace (old ++ rest) old new = new ++ Replace rest old new := by
  cases old with
  | nil => exact absurd rfl hne
  | cons a as =>
    have hp : (a :: as).isPrefixOf (a :: (as ++ rest)) = true :=
      List.isPrefixOf_iff_prefix.mpr ⟨rest, rfl⟩
    have := replace_cons_match (a :: as) new a (as ++ rest) hp hne
    rw [List.cons_append, this, ← List.cons_append, List.drop_left]

theorem replace_of_no_occurrence (old new s : GoString) (h : countOccurrences old s = 0) :
    Replace s old new = s := by
  induction s with
  | nil => exact replace_nil old new
  | cons c cs ih =>
    simp only [countOccurrences] at h
    have h1 : old.isPrefixOf (c :: cs) = false := by
      by_contra hc
      simp only [Bool.not_eq_false] at hc
      simp [hc] at h
    have h2 : countOccurrences old cs = 0 := by omega
    rw [replace_cons_skip old new c cs h1, ih h2]

theorem entryTitle_eq (text : GoString) :
    entryTitle text = some (Replace (firstLine text) ['#', ' '] []) := by
  obtain ⟨rest, hs, _⟩ := split_newline text
  simp [entryTitle, hs, index0]

/-! ## Lemmas on the heading marker -/

theorem marker_rejects (c : Char) (a b : GoString)
    (h : countOccurrences ['#', ' '] (c :: a) = 0) :
    ['#', ' '].isPrefixOf (c :: (a ++ (['#', ' '] ++ b))) = false := by
  simp only [countOccurrences] at h
  cases a with
  | nil =>
    simp only [List.nil_append, List.cons_append, List.isPrefixOf]
    simp
  | cons d a =>
    have h1 : ['#', ' '].isPrefixOf (c :: d :: a) = false := by
      by_contra hc
      simp only [Bool.not_eq_false] at hc
      simp [hc] at h
    simp only [List.isPrefixOf, List.cons_append] at h1 ⊢
    exact h1

theorem replace_marker_append (a b new : GoString)
    (h : countOccurrences ['#', ' '] a = 0) :
    Replace (a ++ (['#', ' '] ++ b)) ['#', ' '] new = a ++ (new ++ Replace b ['#', ' '] new) := by
  induction a with
  | nil =>
    rw [List.nil_append, List.nil_append]
    exact replace_append_match ['#', ' '] new b (by simp)
  | cons c a ih =>
    have hno := marker_rejects c a b h
    have h2 : countOccurrences ['#', ' '] a = 0 := by
      simp only [countOccurrences] at h
      omega
    rw [List.cons_append, replace_cons_skip _ _ c _ hno, ih h2, List.cons_append]

theorem replace_join_markers (segments : List GoString) (hne : segments ≠ [])
    (h : ∀ s ∈ segments, countOccurrences ['#', ' '] s = 0) :
    Replace (Join segments ['#', ' ']) ['#', ' '] [] = Join segments [] := by
  induction segments with
  | nil => exact absurd rfl hne
  | cons s rest ih =>
    cases rest with
    | nil =>
      simp only [Join]
      exact replace_of_no_occurrence _ _ _ (h s (List.mem_cons_self _ _))
    | cons t rest =>
      have hs := h s (List.mem_cons_self _ _)
      have ih' := ih (by simp) (fun x hx => h x (List.mem_cons_of_mem _ hx))
      rw [join_cons s (t :: rest) _ (by simp), join_cons s (t :: rest) _ (by simp),
        List.append_assoc, replace_marker_append s _ [] hs, ih']
      simp

theorem first_marker (line : GoString) (h : countOccurrences ['#', ' '] line ≠ 0) :
    ∃ a b, line = a ++ (['#', ' '] ++ b) ∧ countOccurrences ['#', ' '] a = 0 := by
  induction line with
  | nil => exact absurd rfl h
  | cons c cs ih =>
    by_cases hm : ['#', ' '].isPrefixOf (c :: cs) = true
    · obtain ⟨b, hb⟩ := List.isPrefixOf_iff_prefix.mp hm
      exact ⟨[], b, by rw [List.nil_append, hb], rfl⟩
    · have hm' : ['#', ' '].isPrefixOf (c :: cs) = false := Bool.eq_false_iff.mpr hm
      have hcs : countOccurrences ['#', ' '] cs ≠ 0 := by
        simp only [countOccurrences, hm', Bool.false_eq_true, if_false, Nat.zero_add] at h
        exact h
      obtain ⟨a, b, hab, ha⟩ := ih hcs
      refine ⟨c :: a, b, by rw [hab]; rfl, ?_⟩
      have hca : ['#', ' '].isPrefixOf (c :: a) = false := by
        by_contra hc
        simp only [Bool.not_eq_false] at hc
        have hp : ['#', ' '] <+: c :: a := List.isPrefixOf_iff_prefix.mp hc
        have hp' : ['#', ' '] <+: c :: cs := by
          rw [hab, ← List.cons_append]
          exact hp.trans (List.prefix_append _ _)
        exact hm (List.isPrefixOf_iff_prefix.mpr hp')
      simp only [countOccurrences, hca, Bool.false_eq_true, if_false, Nat.zero_add]
      exact ha

theorem marker_segments_aux (n : Nat) :
    ∀ line : GoString, line.length ≤ n →
      ∃ segments : List GoString, segments ≠ [] ∧
        (∀ s ∈ segments, countOccurrences ['#', ' '] s = 0) ∧
        line = Join segments ['#', ' '] := by
  induction n with
  | zero =>
    intro line hl
    have : line = [] := List.length_eq_zero.mp (Nat.le_zero.mp hl)
    subst this
    exact ⟨[[]], by simp, by simp [countOccurrences], rfl⟩
  | succ n ih =>
    intro line hl
    by_cases h : countOccurrences ['#', ' '] line = 0
    · exact ⟨[line], by simp, by simpa using h, rfl⟩
    · obtain ⟨a, b, hab, ha⟩ := first_marker line h
      have hb : b.length ≤ n := by
        have := congrArg List.length hab
        simp only [List.length_append, List.length_cons, List.length_nil] at this
        omega
      obtain ⟨segments, hne, hall, hj⟩ := ih b hb
      refine ⟨a :: segments, by simp, ?_, ?_⟩
      · intro s hs
        rcases List.mem_cons.mp hs with e | e
        · rw [e]; exact ha
        · exact hall s e
      · rw [join_cons a segments _ hne, hab, hj, List.append_assoc]

theorem replace_marker_length (n : Nat) :
    ∀ s : GoString, s.length ≤ n → (Replace s ['#', ' '] []).length ≤ s.length := by
  induction n with
  | zero =>
    intro s hs
    have : s = [] := List.length_eq_zero.mp (Nat.le_zero.mp hs)
    subst this
    rw [replace_nil]
  | succ n ih =>
    intro s hs
    by_cases h : countOccurrences ['#', ' '] s = 0
    · rw [replace_of_no_occurrence _ _ _ h]
    · obtain ⟨a, b, hab, ha⟩ := first_marker s h
      have hl := congrArg List.length hab
      simp only [List.length_append, List.length_cons, List.length_nil] at hl
      have hb := ih b (by omega)
      rw [hab, replace_marker_append a b [] ha]
      simp only [List.length_append, List.length_cons, List.length_nil]
      omega

/-! ## The claims -/

/-- C4, corrected: the derived title is the first line of the text with every
occurrence of `# ` removed, left to right and without overlap, not only a
leading one.  However the first line is cut into pieces free of `# ` that are
joined by `# `, and it always can be so cut, the title is those pieces put
together with nothing between them.  So a marker behind a non-empty piece
free of `# ` is removed too, and there the title differs from the line with
only a leading marker removed.  The title is the first line itself when that
holds no `# `, and the first line without its leading marker when `# ` occurs
at its start only; `# My Title\nline two\nline three` gives `My Title`. -/
theorem entryTitle_removes_every_marker (text : GoString) :
    entryTitle text = some (Replace (firstLine text) ['#', ' '] []) ∧
    (∀ segments : List GoString, segments ≠ [] →
      (∀ s ∈ segments, countOccurrences ['#', ' '] s = 0) →
      firstLine text = Join segments ['#', ' '] →
      entryTitle text = some (Join segments [])) ∧
    (∃ segments : List GoString, segments ≠ [] ∧
      (∀ s ∈ segments, countOccurrences ['#', ' '] s = 0) ∧
      firstLine text = Join segments ['#', ' '] ∧
      entryTitle text = some (Join segments [])) ∧
    (∀ a b, a ≠ [] → countOccurrences ['#', ' '] a = 0 →
      firstLine text = a ++ (['#', ' '] ++ b) →
      stripLeadingMarker (firstLine text) = firstLine text ∧
      (∃ title, entryTitle text = some (a ++ title) ∧ title.length ≤ b.length) ∧
      entryTitle text ≠ some (stripLeadingMarker (firstLine text))) ∧
    (countOccurrences ['#', ' '] (firstLine text) = 0 →
      entryTitle text = some (firstLine text)) ∧
    (∀ rest, firstLine text = '#' :: ' ' :: rest → countOccurrences ['#', ' '] rest = 0 →
      entryTitle text = some rest ∧ stripLeadingMarker (firstLine text) = rest) ∧
    entryTitle "# My Title\nline two\nline three".toList = some "My Title".toList := by
  have h0 := entryTitle_eq text
  have hseg : ∀ segments : List GoString, segments ≠ [] →
      (∀ s ∈ segments, countOccurrences ['#', ' '] s = 0) →
      firstLine text = Join segments ['#', ' '] →
      entryTitle text = some (Join segments []) := by
    intro segments hne hall hj
    rw [h0, hj, replace_join_markers segments hne hall]
  refine ⟨h0, hseg, ?_, ?_, ?_, ?_, by decide⟩
  · obtain ⟨segments, hne, hall, hj⟩ :=
      marker_segments_aux (firstLine text).length (firstLine text) (Nat.le_refl _)
    exact ⟨segments, hne, hall, hj, hseg segments hne hall hj⟩
  · intro a b hne ha hl
    have hstrip : stripLeadingMarker (firstLine text) = firstLine text := by
      cases a with
      | nil => exact absurd rfl hne
      | cons c a =>
        have := marker_rejects c a b ha
        rw [hl, stripLeadingMarker, List.cons_append, this]
        simp
    have hlen := replace_marker_length b.length b (Nat.le_refl _)
    have htitle : entryTitle text = some (a ++ Replace b ['#', ' '] []) := by
      rw [h0, hl, replace_marker_append a b [] ha, List.nil_append]
    refine ⟨hstrip, ⟨_, htitle, hlen⟩, ?_⟩
    rw [hstrip, htitle, hl]
    intro e
    have e' := congrArg (Option.map List.length) e
    simp only [Option.map_some', List.length_append, List.length_cons, List.length_nil,
      Option.some.injEq] at e'
    omega
  · intro h
    rw [h0, replace_of_no_occurrence _ _ _ h]
  · intro r hr hc
    constructor
    · rw [h0, hr]
      have := replace_append_match ['#', ' '] [] r (by simp)
      simp only [List.cons_append, List.nil_append] at this
      rw [this, replace_of_no_occurrence _ _ _ hc]
    · simp [stripLeadingMarker, hr, List.isPrefixOf]

/-- C4, counterexample: the first line `# A # B` has the title `A B`, while
removing only the leading marker would leave `A # B`. -/
theorem entryTitle_inner_marker_removed :
    entryTitle "# A # B\nbody".toList = some "A B".toList ∧
    stripLeadingMarker (firstLine "# A # B\nbody".toList) = "A # B".toList ∧
    entryTitle "# A # B\nbody".toList
      ≠ some (stripLeadingMarker (firstLine "# A # B\nbody".toList)) := by
  decide

/-- C5: for every text the two index expressions are in range, so title and
body are defined; the body is the lines after the first joined by newlines,
which is the text behind the first newline and empty when there is none; with
no photos the photo loop leaves it as it is; first line, newline and body give
the text back when it has a newline; and `# My Title\nline two\nline three`
has the body `line two\nline three`. -/
theorem entryText_after_first_line (text : GoString) :
    (∃ title, entryTitle text = some title) ∧
    (∃ rest, Split text ['\n'] = firstLine text :: rest ∧
      (∀ line ∈ firstLine text :: rest, '\n' ∉ line) ∧
      entryText text = some (Join rest ['\n'])) ∧
    entryText text = some (afterFirstLine text) ∧
    (∀ (srv : Server) (run : Run),
      ∃ body, photoLoop srv [] (afterFirstLine text) run = Outcome.done body run ∧
        body = afterFirstLine text) ∧
    ('\n' ∉ text → entryText text = some []) ∧
    ('\n' ∈ text → firstLine text ++ ['\n'] ++ afterFirstLine text = text) ∧
    entryText "# My Title\nline two\nline three".toList = some "line two\nline three".toList := by
  obtain ⟨rest, hs, hj⟩ := split_newline text
  have hb : entryText text = some (afterFirstLine text) := by
    simp [entryText, hs, sliceFrom1, hj]
  refine ⟨⟨_, entryTitle_eq text⟩, ⟨rest, hs, ?_, ?_⟩, hb, ?_, ?_, ?_,
    by decide⟩
  · rw [← hs]
    exact splitLoop_lines text.length text (Nat.le_refl _)
  · simp [entryText, hs, sliceFrom1]
  · intro srv run
    exact ⟨_, rfl, rfl⟩
  · intro h
    rw [hb, (no_newline_firstLine text h).2]
  · intro h
    have := firstLine_append text
    rw [newline_dropWhile text h] at this
    simpa using this

/-! ## Lemmas on formatting and time -/

theorem decimalDigits_lt (fuel u : Nat) (h : u < 10) :
    decimalDigits (fuel + 1) u = [Char.ofNat (48 + u)] := by
  simp [decimalDigits, h]

theorem decimalDigits_ge (fuel u : Nat) (h : ¬ u < 10) :
    decimalDigits (fuel + 1) u = decimalDigits fuel (u / 10) ++ [Char.ofNat (48 + u % 10)] := by
  simp [decimalDigits, h]

theorem decimalDigits_four (n : Nat) (h1 : 1000 ≤ n) (h2 : n ≤ 9999) :
    decimalDigits 20 n = [Char.ofNat (48 + n / 1000 % 10), Char.ofNat (48 + n / 100 % 10),
      Char.ofNat (48 + n / 10 % 10), Char.ofNat (48 + n % 10)] := by
  have e1 : n / 10 / 10 / 10 = n / 1000 % 10 := by omega
  have e2 : n / 10 / 10 % 10 = n / 100 % 10 := by omega
  rw [decimalDigits_ge 19 n (by omega), decimalDigits_ge 18 (n / 10) (by omega),
    decimalDigits_ge 17 (n / 10 / 10) (by omega), decimalDigits_lt 16 (n / 10 / 10 / 10) (by omega),
    e1, e2]
  rfl

theorem decimalDigits_two (n : Nat) (h : n ≤ 99) :
    List.replicate (2 - (decimalDigits 20 n).length) '0' ++ decimalDigits 20 n
      = [Char.ofNat (48 + n / 10 % 10), Char.ofNat (48 + n % 10)] := by
  by_cases h1 : n < 10
  · have e1 : n / 10 % 10 = 0 := by omega
    have e2 : n % 10 = n := by omega
    rw [decimalDigits_lt 19 n h1, e1, e2]
    rfl
  · have e1 : n / 10 % 10 = n / 10 := by omega
    rw [decimalDigits_ge 19 n h1, decimalDigits_lt 18 (n / 10) (by omega), e1]
    rfl

theorem fmtInteger_year (y : Int) (h1 : 1000 ≤ y) (h2 : y ≤ 9999) :
    fmtInteger y 0 false = [Char.ofNat (48 + y.toNat / 1000 % 10),
      Char.ofNat (48 + y.toNat / 100 % 10), Char.ofNat (48 + y.toNat / 10 % 10),
      Char.ofNat (48 + y.toNat % 10)] := by
  have hn : ¬ y < 0 := by omega
  have ht : y.natAbs = y.toNat := by omega
  simp only [fmtInteger, hn, if_false, ht, Bool.false_eq_true, Nat.zero_sub, List.replicate,
    List.nil_append]
  rw [decimalDigits_four y.toNat (by omega) (by omega)]

theorem fmtInteger_two (n : Nat) (h : n ≤ 99) :
    fmtInteger (n : Int) 2 true
      = [Char.ofNat (48 + n / 10 % 10), Char.ofNat (48 + n % 10)] := by
  have hn : ¬ (n : Int) < 0 := by omega
  simp only [fmtInteger, hn, if_false, if_true, Int.natAbs_ofNat]
  rw [decimalDigits_two n h]
  simp

theorem daysBefore_bounds (month : Nat) : 0 ≤ daysBefore month ∧ daysBefore month ≤ 365 := by
  unfold daysBefore
  split <;> omega

theorem unix_bounds (t : Time) (h : t.representable) :
    -63000000000 ≤ t.Unix ∧ t.Unix ≤ 254000000000 := by
  obtain ⟨h1, h2, h3, h4, h5, h6, h7, h8, h9, h10, h11⟩ := h
  have hb := daysBefore_bounds t.month
  have hl : (0 : Int) ≤ (if isLeap t.year && decide (3 ≤ t.month) then 1 else 0) ∧
      (if isLeap t.year && decide (3 ≤ t.month) then (1 : Int) else 0) ≤ 1 := by
    split <;> omega
  simp only [Time.Unix, daysSinceEpoch]
  push_cast
  constructor <;> omega

theorem wrapInt64_of_small (x : Int) (h1 : -2 ^ 63 ≤ x) (h2 : x < 2 ^ 63) : wrapInt64 x = x := by
  unfold wrapInt64
  omega

theorem datedTitle_eq (date : Time) (title : GoString)
    (hy : 1000 ≤ date.year) (hy' : date.year ≤ 9999) (hm : date.month ≤ 99) (hd : date.day ≤ 99) :
    datedTitle date title = isoDate date.year.toNat date.month date.day ++ [' '] ++ title := by
  simp only [datedTitle, Time.Year, Time.Month, Time.Day, fmtInteger_year date.year hy hy',
    fmtInteger_two date.month hm, fmtInteger_two date.day hd, isoDate]
  simp

/-- C6, corrected: the year is written by `%d`, without padding.  For every
creation date with a year from 1000 to 9999, a month from 1 to 12 and a day
from 1 to 31 the note title is the zero-padded `YYYY-MM-DD` rendering of the
date, ten characters, then one space, then the derived title. -/
theorem note_title_date_prefix (notebook : GoString) (journalEntry : JournalEntry)
    (title text : GoString)
    (hy : 1000 ≤ journalEntry.CreationDate.year ∧ journalEntry.CreationDate.year ≤ 9999)
    (hm : 1 ≤ journalEntry.CreationDate.month ∧ journalEntry.CreationDate.month ≤ 12)
    (hd : 1 ≤ journalEntry.CreationDate.day ∧ journalEntry.CreationDate.day ≤ 31) :
    (noteFor notebook journalEntry title text).Title
      = isoDate journalEntry.CreationDate.year.toNat journalEntry.CreationDate.month
          journalEntry.CreationDate.day ++ [' '] ++ title ∧
    (isoDate journalEntry.CreationDate.year.toNat journalEntry.CreationDate.month
      journalEntry.CreationDate.day).length = 10 := by
  refine ⟨?_, rfl⟩
  simp only [noteFor]
  exact datedTitle_eq _ _ hy.1 hy.2 (by omega) (by omega)

/-- C6, witness: an entry created on 2023-03-05 gets a title that starts with
`2023-03-05 `. -/
theorem note_title_date_prefix_witness :
    (noteFor "nb".toList
        { CreationDate := ⟨2023, 3, 5, 12, 0, 0, 0⟩, Location := none, Photos := [], Tags := [],
          Text := "# My Title".toList } "My Title".toList []).Title
      = "2023-03-05 My Title".toList ∧
    (isoDate 2023 3 5).length = 10 :=
  note_title_date_prefix "nb".toList
    { CreationDate := ⟨2023, 3, 5, 12, 0, 0, 0⟩, Location := none, Photos := [], Tags := [],
      Text := "# My Title".toList } "My Title".toList []
    (by decide) (by decide) (by decide)

/-- C6, counterexample: an entry created on 0999-03-05 gets the title prefix
`999-03-05 `, nine characters of date, not the zero-padded `0999-03-05 `. -/
theorem note_title_short_year :
    (noteFor "nb".toList
        { CreationDate := ⟨999, 3, 5, 12, 0, 0, 0⟩, Location := none, Photos := [], Tags := [],
          Text := "x".toList } "x".toList []).Title = "999-03-05 x".toList ∧
    isoDate 999 3 5 = "0999-03-05".toList ∧
    (noteFor "nb".toList
        { CreationDate := ⟨999, 3, 5, 12, 0, 0, 0⟩, Location := none, Photos := [], Tags := [],
          Text := "x".toList } "x".toList []).Title ≠ isoDate 999 3 5 ++ [' '] ++ "x".toList := by
  decide

/-- C7: for every entry whose creation date an export can hold (years 0000 to
9999) and whose creation instant is `T` unix seconds, `user_created_time` and
`user_updated_time` of the note are equal and both are exactly `T * 1000`: the
product lies within the signed 64-bit range, so the multiplication does not
wrap. -/
theorem note_times_exact (notebook : GoString) (journalEntry : JournalEntry)
    (title text : GoString) (h : journalEntry.CreationDate.representable) :
    (noteFor notebook journalEntry title text).UserCreatedTime
      = journalEntry.CreationDate.Unix * 1000 ∧
    (noteFor notebook journalEntry title text).UserUpdatedTime
      = journalEntry.CreationDate.Unix * 1000 ∧
    (noteFor notebook journalEntry title text).UserCreatedTime
      = (noteFor notebook journalEntry title text).UserUpdatedTime ∧
    -2 ^ 63 ≤ journalEntry.CreationDate.Unix * 1000 ∧
    journalEntry.CreationDate.Unix * 1000 < 2 ^ 63 := by
  obtain ⟨hlo, hhi⟩ := unix_bounds _ h
  have h1 : -2 ^ 63 ≤ journalEntry.CreationDate.Unix * 1000 := by omega
  have h2 : journalEntry.CreationDate.Unix * 1000 < 2 ^ 63 := by omega
  have hw := wrapInt64_of_small _ h1 h2
  exact ⟨hw, hw, rfl, h1, h2⟩

/-- C7, witness: the entry created at 2023-03-05T12:00:00Z, unix second
1678017600, has both note times equal to 1678017600000. -/
theorem note_times_exact_witness :
    Time.representable ⟨2023, 3, 5, 12, 0, 0, 0⟩ ∧
    Time.Unix ⟨2023, 3, 5, 12, 0, 0, 0⟩ = 1678017600 ∧
    (noteFor "nb".toList
        { CreationDate := ⟨2023, 3, 5, 12, 0, 0, 0⟩, Location := none, Photos := [], Tags := [],
          Text := [] } [] []).UserCreatedTime = 1678017600 * 1000 ∧
    (noteFor "nb".toList
        { CreationDate := ⟨2023, 3, 5, 12, 0, 0, 0⟩, Location := none, Photos := [], Tags := [],
          Text := [] } [] []).UserUpdatedTime = 1678017600 * 1000 :=
  have hr : Time.representable ⟨2023, 3, 5, 12, 0, 0, 0⟩ := by
    simp [Time.representable]
  have hw := note_times_exact "nb".toList
    { CreationDate := ⟨2023, 3, 5, 12, 0, 0, 0⟩, Location := none, Photos := [], Tags := [],
      Text := [] } [] [] hr
  ⟨hr, by decide, hw.1, hw.2.1⟩

/-- C8: the note of an entry without location has latitude and longitude
`0.0`; the note of an entry with a location has the latitude and longitude of
that location's `region.center`, whatever the location's own `latitude` and
`longitude` fields hold. -/
theorem note_coordinates (notebook : GoString) (journalEntry : JournalEntry)
    (title text : GoString) :
    (journalEntry.Location = none →
      (noteFor notebook journalEntry title text).Latitude = Float64.zero ∧
      (noteFor notebook journalEntry title text).Longitude = Float64.zero) ∧
    (∀ location, journalEntry.Location = some location →
      (noteFor notebook journalEntry title text).Latitude = location.Region.Center.Latitude ∧
      (noteFor notebook journalEntry title text).Longitude = location.Region.Center.Longitude) ∧
    (noteFor notebook
        { journalEntry with
          Location := some { Address := [], AdministrativeArea := [], Country := [],
                             Latitude := ⟨1⟩, LocalityName := [], Longitude := ⟨2⟩, PlaceName := [],
                             Region := ⟨⟨⟨3⟩, ⟨4⟩⟩⟩ } } title text).Latitude = ⟨3⟩ ∧
    (noteFor notebook
        { journalEntry with
          Location := some { Address := [], AdministrativeArea := [], Country := [],
                             Latitude := ⟨1⟩, LocalityName := [], Longitude := ⟨2⟩, PlaceName := [],
                             Region := ⟨⟨⟨3⟩, ⟨4⟩⟩⟩ } } title text).Longitude = ⟨4⟩ := by
  refine ⟨?_, ?_, rfl, rfl⟩
  · intro h
    simp [noteFor, defaultLocation, h]
  · intro location h
    simp [noteFor, defaultLocation, h]

/-! ## Lemmas on `GetTags` -/

theorem getTagsLoop_advance (srv : Server) (pages : Nat → Tags) (count : Nat) :
    ∀ (first fuel : Nat) (tags : Tags) (run : Run),
      (∀ i, first < i → i ≤ first + count →
        srv.tagsPage i = .ok (pages i) ∧ (pages i).HasMore = true) →
      getTagsLoop srv (count + fuel) first tags run
        = getTagsLoop srv fuel (first + count)
            { tags with Items := tags.Items ++ concatPages pages first count }
            { run with calls := run.calls ++ (List.range' (first + 1) count).map Call.getTags } := by
  induction count with
  | zero =>
    intro first fuel tags run _
    simp [concatPages]
  | succ count ih =>
    intro first fuel tags run h
    obtain ⟨h1, h2⟩ := h (first + 1) (by omega) (by omega)
    have e : count + 1 + fuel = (count + fuel) + 1 := by omega
    rw [e]
    simp only [getTagsLoop, h1, h2, Bool.not_true, Bool.false_eq_true, if_false]
    rw [ih (first + 1) fuel _ _ (fun i hi hi' => h i (by omega) (by omega))]
    simp only [concatPages, List.append_assoc, List.range'_succ, List.map_cons,
      List.singleton_append]
    congr 1
    omega

theorem concatPages_succ (pages : Nat → Tags) (count : Nat) :
    ∀ first, concatPages pages first (count + 1)
      = concatPages pages first count ++ (pages (first + count + 1)).Items := by
  induction count with
  | zero => intro first; simp [concatPages]
  | succ count ih =>
    intro first
    rw [concatPages, ih (first + 1), concatPages, List.append_assoc]
    have e : first + 1 + count + 1 = first + (count + 1) + 1 := by omega
    rw [e]

theorem range_succ_map (m : Nat) :
    (List.range' 1 (m + 1)).map Call.getTags
      = (List.range' 1 m).map Call.getTags ++ [Call.getTags (m + 1)] := by
  rw [List.range'_concat]
  simp [Nat.add_comm]

/-- C9: when the server answers the requests for pages 1 to `n`, `n` at least
one, pages 1 to `n - 1` with `has_more` set and page `n` without, `GetTags`
given `n` rounds or more returns, with no error, the items of the `n` pages
concatenated in page order, having requested exactly the pages 1, 2, ..., `n`
in that order. -/
theorem getTags_fetches_all_pages (srv : Server) (pages : Nat → Tags) (n fuel : Nat) (run : Run)
    (hn : 1 ≤ n) (hfuel : n ≤ fuel)
    (hok : ∀ i, 1 ≤ i → i ≤ n → srv.tagsPage i = .ok (pages i))
    (hmore : ∀ i, 1 ≤ i → i < n → (pages i).HasMore = true)
    (hlast : (pages n).HasMore = false) :
    GetTags srv fuel run
      = some (({ Items := concatPages pages 0 n, HasMore := false }, none),
          { run with calls := run.calls ++ (List.range' 1 n).map Call.getTags }) := by
  obtain ⟨m, rfl⟩ : ∃ m, n = m + 1 := ⟨n - 1, by omega⟩
  obtain ⟨rest, rfl⟩ : ∃ rest, fuel = m + (rest + 1) := ⟨fuel - m - 1, by omega⟩
  unfold GetTags
  rw [getTagsLoop_advance srv pages m 0 (rest + 1) _ run
    (fun i hi hi' => ⟨hok i (by omega) (by omega), hmore i (by omega) (by omega)⟩)]
  have hlast' : (pages (0 + m + 1)).HasMore = false := by
    rw [show 0 + m + 1 = m + 1 by omega]; exact hlast
  simp only [getTagsLoop, hok (0 + m + 1) (by omega) (by omega), hlast', Bool.not_false, if_true]
  rw [concatPages_succ, range_succ_map]
  simp [List.append_assoc]

/-- C9, witness: three pages, only the third without `has_more`: three
requests, for pages 1, 2 and 3, and the items of the three pages in order. -/
theorem getTags_fetches_all_pages_witness :
    GetTags threePageServer 3 Run.start
      = some (({ Items := [tagItem "a1" "home", tagItem "a2" "work", tagItem "b1" "travel",
                           tagItem "c1" "food"], HasMore := false }, none),
          { Run.start with calls := [Call.getTags 1, Call.getTags 2, Call.getTags 3] }) :=
  getTags_fetches_all_pages threePageServer threePages 3 3 Run.start (by decide) (by decide)
    (fun i h1 h2 => by interval_cases i <;> rfl)
    (fun i h1 h2 => by interval_cases i <;> rfl)
    rfl

/-- C10, corrected: when the requests for pages 1 to `k` succeed with
`has_more` set and the request for page `k + 1` fails, `GetTags` given
`k + 1` rounds or more returns that error together with the items of pages 1
to `k` gathered so far; `main` panics with the error straight away, so no
entry is processed with the partial list. -/
theorem getTags_failure_returns_fetched_items (srv : Server) (pages : Nat → Tags)
    (k fuel : Nat) (err : Error) (hfuel : k + 1 ≤ fuel)
    (hok : ∀ i, 1 ≤ i → i ≤ k → srv.tagsPage i = .ok (pages i) ∧ (pages i).HasMore = true)
    (hfail : srv.tagsPage (k + 1) = .error err) :
    (∀ run, GetTags srv fuel run
      = some (({ Items := concatPages pages 0 k, HasMore := false }, some err),
          { run with calls := run.calls ++ (List.range' 1 (k + 1)).map Call.getTags })) ∧
    (∀ unicodeToLower notebook entries,
      main unicodeToLower srv notebook (.ok entries) fuel
        = some (Outcome.panic err
            { Run.start with calls := (List.range' 1 (k + 1)).map Call.getTags })) := by
  obtain ⟨rest, rfl⟩ : ∃ rest, fuel = k + (rest + 1) := ⟨fuel - k - 1, by omega⟩
  have hg : ∀ run, GetTags srv (k + (rest + 1)) run
      = some (({ Items := concatPages pages 0 k, HasMore := false }, some err),
          { run with calls := run.calls ++ (List.range' 1 (k + 1)).map Call.getTags }) := by
    intro run
    unfold GetTags
    rw [getTagsLoop_advance srv pages k 0 (rest + 1) _ run
      (fun i hi hi' => hok i (by omega) (by omega))]
    have hfail' : srv.tagsPage (0 + k + 1) = .error err := by
      rw [show 0 + k + 1 = k + 1 by omega]; exact hfail
    simp only [getTagsLoop, hfail']
    rw [range_succ_map]
    simp [List.append_assoc]
  refine ⟨hg, ?_⟩
  intro u notebook entries
  simp only [main, hg Run.start]
  simp [Run.start]

/-- C10, witness: the first page arrives, the second request fails. -/
theorem getTags_failure_returns_fetched_items_witness :
    (∀ run, GetTags brokenSecondPageServer 2 run
      = some (({ Items := concatPages brokenPages 0 1, HasMore := false }, some Error.network),
          { run with calls := run.calls ++ (List.range' 1 (1 + 1)).map Call.getTags })) ∧
    (∀ unicodeToLower notebook entries,
      main unicodeToLower brokenSecondPageServer notebook (.ok entries) 2
        = some (Outcome.panic Error.network
            { Run.start with calls := (List.range' 1 (1 + 1)).map Call.getTags })) :=
  getTags_failure_returns_fetched_items brokenSecondPageServer brokenPages 1 2 Error.network
    (by decide) (fun i h1 h2 => by interval_cases i; exact ⟨rfl, rfl⟩) rfl

/-- C10, counterexample: the first page holds one tag, the second request
fails; the list `GetTags` returns beside the error holds that tag, it is not
empty. -/
theorem getTags_failure_not_empty :
    GetTags brokenSecondPageServer 2 Run.start
      = some (({ Items := [tagItem "a1" "home"], HasMore := false }, some Error.network),
          { Run.start with calls := [Call.getTags 1, Call.getTags 2] }) ∧
    (GetTags brokenSecondPageServer 2 Run.start).map (fun r => r.1.1.Items) ≠ some [] := by
  decide

/-! ## Lemmas on the tag loop -/

theorem findTagID_miss (tag : GoString) (items : List TagItem)
    (h : ∀ x ∈ items, x.Title ≠ tag) : findTagID tag items = [] := by
  induction items with
  | nil => rfl
  | cons x rest ih =>
    have hx : x.Title ≠ tag := h x (List.mem_cons_self _ _)
    simp only [findTagID, hx, if_false]
    exact ih (fun y hy => h y (List.mem_cons_of_mem _ hy))

theorem findTagID_hit (tag : GoString) (before after : List TagItem) (item : TagItem)
    (hb : ∀ x ∈ before, x.Title ≠ tag) (hi : item.Title = tag) :
    findTagID tag (before ++ item :: after) = item.ID := by
  induction before with
  | nil => simp [findTagID, hi]
  | cons x rest ih =>
    have hx : x.Title ≠ tag := hb x (List.mem_cons_self _ _)
    simp only [List.cons_append, findTagID, hx, if_false]
    exact ih (fun y hy => hb y (List.mem_cons_of_mem _ hy))

theorem resolveTag_miss (unicodeToLower : Char → Char) (srv : Server) (tags : Tags)
    (tag : GoString) (run : Run) (tagResponse : TagResponse)
    (hmiss : ∀ x ∈ tags.Items, x.Title ≠ ToLower unicodeToLower tag)
    (hsrv : srv.tag run.tags = .ok tagResponse) :
    resolveTag unicodeToLower srv tags tag run
      = Outcome.done tagResponse.ID
          { run with calls := run.calls ++ [Call.createTag (ToLower unicodeToLower tag)],
                     tags := run.tags + 1 } := by
  simp [resolveTag, findTagID_miss _ _ hmiss, hsrv]

/-- C2, corrected: the lookup compares the lowered requested title with the
stored titles as they are.  When the first item of the snapshot whose title
equals `lower(t)` has the non-empty id `i`, resolving `t` yields `i` and makes
no call: the run is unchanged.  A stored title with upper-case letters is
not matched. -/
theorem resolveTag_finds_lowered_title (unicodeToLower : Char → Char) (srv : Server)
    (before after : List TagItem) (item : TagItem) (hasMore : Bool) (t : GoString) (run : Run)
    (hfirst : ∀ x ∈ before, x.Title ≠ ToLower unicodeToLower t)
    (htitle : item.Title = ToLower unicodeToLower t)
    (hid : item.ID ≠ []) :
    resolveTag unicodeToLower srv { Items := before ++ item :: after, HasMore := hasMore } t run
      = Outcome.done item.ID run := by
  have hlen : ¬ item.ID.length = 0 := fun h => hid (List.length_eq_zero.mp h)
  simp only [resolveTag, findTagID_hit _ before after item hfirst htitle, hlen, if_false]

/-- C2, witness: the snapshot holds `home` and then `work` under the id `a2`;
resolving `Work` yields `a2` without a call. -/
theorem resolveTag_finds_lowered_title_witness :
    resolveTag id freshTagServer
        { Items := [tagItem "a1" "home"] ++ tagItem "a2" "work" :: [tagItem "a3" "food"],
          HasMore := false } "Work".toList Run.start
      = Outcome.done "a2".toList Run.start :=
  resolveTag_finds_lowered_title id freshTagServer [tagItem "a1" "home"] [tagItem "a3" "food"]
    (tagItem "a2" "work") false "Work".toList Run.start (by decide) (by decide) (by decide)

/-- C2, counterexample: the snapshot holds the tag `Work` under the id `a1`,
and `work` lowers to the same title as `Work`; resolving `work` does not yield
`a1` but creates a tag `work` and yields the new id `id1`. -/
theorem resolveTag_capital_title_not_matched :
    ToLower id "work".toList = ToLower id "Work".toList ∧
    resolveTag id capitalTagServer { Items := [tagItem "a1" "Work"], HasMore := false }
        "work".toList Run.start
      = Outcome.done "id1".toList
          { Run.start with calls := [Call.createTag "work".toList], tags := 1 } := by
  constructor
  · decide
  · rfl

/-- C1, corrected: the tags fetched at the start are never added to.  When the
snapshot holds no tag titled `lower(t)` and `lower(t') = lower(t)`, each of
the two resolutions creates a tag titled `lower(t)` and yields the id the
server gave to its own create call, whatever the state of the run at the
second one; within one entry tagged `t`, `t'` the calls are create, link,
create, link: two create calls, and two ids that are equal only if the server
answers both calls with the same id. -/
theorem resolveTag_creates_every_time (unicodeToLower : Char → Char) (srv : Server) (tags : Tags)
    (t t' : GoString) (run later : Run) (first second : TagResponse) (noteResponse : GoString)
    (hmiss : ∀ x ∈ tags.Items, x.Title ≠ ToLower unicodeToLower t)
    (hsame : ToLower unicodeToLower t' = ToLower unicodeToLower t)
    (hfirst : srv.tag run.tags = .ok first)
    (hsecond : srv.tag later.tags = .ok second)
    (hnext : srv.tag (run.tags + 1) = .ok second)
    (hlink : srv.link run.links = .ok () ∧ srv.link (run.links + 1) = .ok ()) :
    resolveTag unicodeToLower srv tags t run
      = Outcome.done first.ID
          { run with calls := run.calls ++ [Call.createTag (ToLower unicodeToLower t)],
                     tags := run.tags + 1 } ∧
    resolveTag unicodeToLower srv tags t' later
      = Outcome.done second.ID
          { later with calls := later.calls ++ [Call.createTag (ToLower unicodeToLower t)],
                       tags := later.tags + 1 } ∧
    tagLoop unicodeToLower srv tags noteResponse [t, t'] run
      = Outcome.done ()
          { run with
            calls := run.calls ++ [Call.createTag (ToLower unicodeToLower t),
              Call.linkTag first.ID noteResponse, Call.createTag (ToLower unicodeToLower t),
              Call.linkTag second.ID noteResponse]
            tags := run.tags + 2
            links := run.links + 2 } := by
  have hmiss' : ∀ x ∈ tags.Items, x.Title ≠ ToLower unicodeToLower t' := by
    rw [hsame]; exact hmiss
  have h1 := resolveTag_miss unicodeToLower srv tags t run first hmiss hfirst
  have h2 := resolveTag_miss unicodeToLower srv tags t' later second hmiss' hsecond
  rw [hsame] at h2
  refine ⟨h1, h2, ?_⟩
  have h3 := resolveTag_miss unicodeToLower srv tags t'
    { calls := run.calls ++ [Call.createTag (ToLower unicodeToLower t)] ++
        [Call.linkTag first.ID noteResponse],
      resources := run.resources, notes := run.notes, tags := run.tags + 1,
      links := run.links + 1 } second hmiss' hnext
  rw [hsame] at h3
  simp only [tagLoop, h1, hlink.1, hlink.2, h3]
  simp

/-- C1, witness: nothing is known about `work`; resolving `Work` and then
`work` creates the tag twice, with the ids `id1` and `id2`. -/
theorem resolveTag_creates_every_time_witness :
    resolveTag id freshTagServer { Items := [], HasMore := false } "Work".toList Run.start
      = Outcome.done "id1".toList
          { Run.start with calls := [] ++ [Call.createTag (ToLower id "Work".toList)],
                           tags := 0 + 1 } ∧
    resolveTag id freshTagServer { Items := [], HasMore := false } "work".toList
        { Run.start with tags := 1 }
      = Outcome.done "id2".toList
          { Run.start with calls := [] ++ [Call.createTag (ToLower id "Work".toList)],
                           tags := 1 + 1 } ∧
    tagLoop id freshTagServer { Items := [], HasMore := false } "n1".toList
        ["Work".toList, "work".toList] Run.start
      = Outcome.done ()
          { Run.start with
            calls := [] ++ [Call.createTag (ToLower id "Work".toList),
              Call.linkTag "id1".toList "n1".toList, Call.createTag (ToLower id "Work".toList),
              Call.linkTag "id2".toList "n1".toList]
            tags := 0 + 2
            links := 0 + 2 } :=
  resolveTag_creates_every_time id freshTagServer { Items := [], HasMore := false }
    "Work".toList "work".toList Run.start { Run.start with tags := 1 }
    { ID := "id1".toList } { ID := "id2".toList } "n1".toList
    (by simp) (by decide) rfl rfl rfl ⟨rfl, rfl⟩

/-- C1, counterexample: the server knows no tag and numbers the tags it
creates.  One entry tagged `Work` and `work`, and likewise two entries tagged
`Work` and `work`, make two create-tag calls, both for `work`, and the note
is linked to two different ids, `id1` and `id2`. -/
theorem main_creates_tag_twice :
    ((main id freshTagServer "nb".toList (.ok [taggedEntry ["Work", "work"]]) 1).bind
        Outcome.calls).map createdTitles = some ["work".toList, "work".toList] ∧
    ((main id freshTagServer "nb".toList (.ok [taggedEntry ["Work", "work"]]) 1).bind
        Outcome.calls).map linkedIDs = some ["id1".toList, "id2".toList] ∧
    ((main id freshTagServer "nb".toList (.ok [taggedEntry ["Work"], taggedEntry ["work"]]) 1).bind
        Outcome.calls).map createdTitles = some ["work".toList, "work".toList] ∧
    ((main id freshTagServer "nb".toList (.ok [taggedEntry ["Work"], taggedEntry ["work"]]) 1).bind
        Outcome.calls).map linkedIDs = some ["id1".toList, "id2".toList] := by
  refine ⟨?_, ?_, ?_, ?_⟩ <;> rfl

/-! ## Lemmas on bracketed words -/

theorem isPrefixOf_cons_cons (a b : Char) (as bs : GoString) :
    (a :: as).isPrefixOf (b :: bs) = (a == b && as.isPrefixOf bs) := rfl

theorem bracketed_rejects (p : GoString) (hp : Bracketed p) (c : Char) (s : GoString)
    (hc : c ≠ '!') : p.isPrefixOf (c :: s) = false := by
  obtain ⟨mid, rfl, _, _⟩ := hp
  rw [isPrefixOf_cons_cons]
  have : ('!' == c) = false := by
    simp only [beq_eq_false_iff_ne, ne_eq]
    exact fun e => hc e.symm
  simp [this]

theorem bracketed_ne_nil (p : GoString) (hp : Bracketed p) : p ≠ [] := by
  obtain ⟨mid, rfl, _, _⟩ := hp
  simp

theorem bracketed_prefix_eq (p q : GoString) (hp : Bracketed p) (hq : Bracketed q)
    (h : p <+: q) : p = q := by
  obtain ⟨mp, rfl, _, hp2⟩ := hp
  obtain ⟨mq, rfl, _, hq2⟩ := hq
  obtain ⟨r, hr⟩ := h
  simp only [List.cons_append, List.cons.injEq, true_and, List.append_assoc,
    List.singleton_append] at hr
  rcases List.append_eq_append_iff.mp hr with ⟨a, h1, h2⟩ | ⟨c, h1, h2⟩
  · -- `mq = mp ++ a` and `')' :: r = a ++ [')']`
    cases a with
    | nil =>
      simp only [List.nil_append, List.cons.injEq, true_and] at h2
      simp [h1]
    | cons x xs =>
      simp only [List.cons_append, List.cons.injEq] at h2
      exact absurd (by rw [h1, ← h2.1]; simp) hq2
  · -- `mp = mq ++ c` and `[')'] = c ++ ')' :: r`
    cases c with
    | nil =>
      simp only [List.nil_append, List.cons.injEq, true_and] at h2
      simp [h1]
    | cons x xs =>
      simp only [List.cons_append, List.cons.injEq] at h2
      have := h2.2
      simp at this

theorem bracketed_prefix_unique (p q s : GoString) (hp : Bracketed p) (hq : Bracketed q)
    (h1 : p <+: s) (h2 : q <+: s) : p = q := by
  rcases Nat.le_total p.length q.length with h | h
  · exact bracketed_prefix_eq p q hp hq (List.prefix_of_prefix_length_le h1 h2 h)
  · exact (bracketed_prefix_eq q p hq hp (List.prefix_of_prefix_length_le h2 h1 h)).symm

theorem count_append_no_bang (p : GoString) (hp : Bracketed p) (u rest : GoString)
    (hu : '!' ∉ u) : countOccurrences p (u ++ rest) = countOccurrences p rest := by
  induction u with
  | nil => rfl
  | cons a u ih =>
    have ha : a ≠ '!' := fun e => hu (e ▸ List.mem_cons_self _ _)
    have hu' : '!' ∉ u := fun h => hu (List.mem_cons_of_mem _ h)
    simp only [List.cons_append, countOccurrences, bracketed_rejects p hp a _ ha,
      Bool.false_eq_true, if_false, Nat.zero_add]
    exact ih hu'

theorem count_bracketed_append (p w : GoString) (hp : Bracketed p) (hw : Bracketed w)
    (rest : GoString) :
    countOccurrences p (w ++ rest) = (if p = w then 1 else 0) + countOccurrences p rest := by
  have hpre : (p.isPrefixOf (w ++ rest) = true) ↔ p = w := by
    constructor
    · intro h
      exact bracketed_prefix_unique p w (w ++ rest) hp hw (List.isPrefixOf_iff_prefix.mp h)
        (List.prefix_append _ _)
    · rintro rfl
      exact List.isPrefixOf_iff_prefix.mpr (List.prefix_append _ _)
  obtain ⟨mid, rfl, hm1, _⟩ := hw
  have htail : countOccurrences p (mid ++ [')'] ++ rest) = countOccurrences p rest := by
    rw [List.append_assoc, count_append_no_bang p hp mid _ hm1]
    show countOccurrences p (')' :: rest) = countOccurrences p rest
    simp only [countOccurrences,
      bracketed_rejects p hp ')' rest (by decide), Bool.false_eq_true, if_false, Nat.zero_add]
  rw [List.cons_append] at hpre ⊢
  simp only [countOccurrences, htail]
  by_cases h : p = '!' :: (mid ++ [')'])
  · rw [if_pos (hpre.mpr h), if_pos h]
  · have : ¬ (p.isPrefixOf ('!' :: (mid ++ [')'] ++ rest)) = true) := fun e => h (hpre.mp e)
    rw [if_neg this, if_neg h]

theorem prefix_replace_no_bang (old new : GoString) (hold : Bracketed old) (hnew : Bracketed new)
    (u : GoString) (hu : '!' ∉ u) :
    ∀ s, u.isPrefixOf (Replace s old new) = u.isPrefixOf s := by
  induction u with
  | nil => intro s; simp [List.isPrefixOf]
  | cons a u ih =>
    have ha : a ≠ '!' := fun e => hu (e ▸ List.mem_cons_self _ _)
    have hu' : '!' ∉ u := fun h => hu (List.mem_cons_of_mem _ h)
    have hab : (a == '!') = false := by simpa using ha
    intro s
    cases s with
    | nil => rw [replace_nil]
    | cons d ds =>
      by_cases hm : old.isPrefixOf (d :: ds) = true
      · have hd : d = '!' := by
          by_contra hne
          rw [bracketed_rejects old hold d ds hne] at hm
          exact Bool.false_ne_true hm
        rw [replace_cons_match old new d ds hm (bracketed_ne_nil old hold)]
        obtain ⟨mid, rfl, _, _⟩ := hnew
        subst hd
        simp only [List.cons_append, isPrefixOf_cons_cons, hab, Bool.false_and]
      · have hm' : old.isPrefixOf (d :: ds) = false := Bool.eq_false_iff.mpr hm
        rw [replace_cons_skip old new d ds hm']
        simp only [isPrefixOf_cons_cons, ih hu' ds]

theorem bracketed_prefix_replace (old new p : GoString) (hold : Bracketed old)
    (hnew : Bracketed new) (hp : Bracketed p) (c : Char) (cs : GoString) :
    p.isPrefixOf (c :: Replace cs old new) = p.isPrefixOf (c :: cs) := by
  obtain ⟨mid, rfl, hm1, _⟩ := hp
  have hno : '!' ∉ mid ++ [')'] := by
    simp only [List.mem_append, List.mem_singleton, not_or]
    exact ⟨hm1, by decide⟩
  simp only [isPrefixOf_cons_cons, prefix_replace_no_bang old new hold hnew _ hno cs]

theorem count_replace_aux (old new p : GoString) (hold : Bracketed old) (hnew : Bracketed new)
    (hp : Bracketed p) (n : Nat) :
    ∀ s : GoString, s.length ≤ n →
      countOccurrences p (Replace s old new)
        = (if p = old then 0 else countOccurrences p s)
          + (if p = new then countOccurrences old s else 0) := by
  induction n with
  | zero =>
    intro s hs
    have : s = [] := List.length_eq_zero.mp (Nat.le_zero.mp hs)
    subst this
    rw [replace_nil]
    simp [countOccurrences]
  | succ n ih =>
    intro s hs
    cases s with
    | nil =>
      rw [replace_nil]
      simp [countOccurrences]
    | cons c cs =>
      by_cases hm : old.isPrefixOf (c :: cs) = true
      · -- a match: `c :: cs = old ++ rest`
        obtain ⟨rest, hrest⟩ := List.isPrefixOf_iff_prefix.mp hm
        have hdrop : (c :: cs).drop old.length = rest := by
          rw [← hrest, List.drop_left]
        have hlen : rest.length ≤ n := by
          have h1 : (c :: cs).length = old.length + rest.length := by
            rw [← hrest, List.length_append]
          have h2 : 0 < old.length := List.length_pos.mpr (bracketed_ne_nil old hold)
          simp only [List.length_cons] at hs h1
          omega
        rw [replace_cons_match old new c cs hm (bracketed_ne_nil old hold), hdrop,
          count_bracketed_append p new hp hnew, ih rest hlen, ← hrest,
          count_bracketed_append p old hp hold, count_bracketed_append old old hold hold]
        by_cases e1 : p = old
        · subst e1
          by_cases e2 : p = new
          · subst e2
            simp only [if_true]
            omega
          · simp only [e2, if_true, if_false]
        · by_cases e2 : p = new
          · subst e2
            simp only [e1, if_true, if_false]
            omega
          · simp only [e1, e2, if_false]
            omega
      · have hm' : old.isPrefixOf (c :: cs) = false := Bool.eq_false_iff.mpr hm
        have hlen : cs.length ≤ n := by
          simp only [List.length_cons] at hs
          omega
        rw [replace_cons_skip old new c cs hm']
        simp only [countOccurrences, bracketed_prefix_replace old new p hold hnew hp c cs,
          ih cs hlen, hm', Bool.false_eq_true, if_false, Nat.zero_add]
        by_cases e1 : p = old
        · subst e1
          simp [hm']
        · simp only [e1, if_false]
          omega

theorem count_replace (old new p : GoString) (hold : Bracketed old) (hnew : Bracketed new)
    (hp : Bracketed p) (s : GoString) :
    countOccurrences p (Replace s old new)
      = (if p = old then 0 else countOccurrences p s)
        + (if p = new then countOccurrences old s else 0) :=
  count_replace_aux old new p hold hnew hp s.length s (Nat.le_refl _)

/-! ## Lemmas on placeholders and resource references -/

theorem alphanum_no_special (s : GoString) (h : s.all Char.isAlphanum = true) :
    '!' ∉ s ∧ ')' ∉ s ∧ '$' ∉ s := by
  rw [List.all_eq_true] at h
  refine ⟨fun m => ?_, fun m => ?_, fun m => ?_⟩
  · exact absurd (h _ m) (by decide)
  · exact absurd (h _ m) (by decide)
  · exact absurd (h _ m) (by decide)

theorem bracketed_placeholder (identifier : GoString)
    (h : identifier.all Char.isAlphanum = true) : Bracketed (placeholder identifier) := by
  obtain ⟨h1, h2, _⟩ := alphanum_no_special identifier h
  refine ⟨['[', ']', '(', 'd', 'a', 'y', 'o', 'n', 'e', '-', 'm', 'o', 'm', 'e', 'n', 't', ':',
    '/', '/'] ++ identifier, by simp [placeholder], ?_, ?_⟩
  · simp only [List.mem_append, not_or]
    exact ⟨by decide, h1⟩
  · simp only [List.mem_append, not_or]
    exact ⟨by decide, h2⟩

theorem bracketed_resourceRef (id : GoString) (h : id.all Char.isAlphanum = true) :
    Bracketed (resourceRef id) := by
  obtain ⟨h1, h2, _⟩ := alphanum_no_special id h
  refine ⟨['[', ']', '(', ':', '/'] ++ id, by simp [resourceRef], ?_, ?_⟩
  · simp only [List.mem_append, not_or]
    exact ⟨by decide, h1⟩
  · simp only [List.mem_append, not_or]
    exact ⟨by decide, h2⟩

theorem placeholder_ne (a b : GoString) (h : a ≠ b) : placeholder a ≠ placeholder b := by
  intro e
  simp only [placeholder, List.append_assoc, List.cons_append, List.nil_append, List.cons.injEq,
    true_and] at e
  exact h (List.append_cancel_right e)

theorem resourceRef_ne (a b : GoString) (h : a ≠ b) : resourceRef a ≠ resourceRef b := by
  intro e
  simp only [resourceRef, List.append_assoc, List.cons_append, List.nil_append, List.cons.injEq,
    true_and] at e
  exact h (List.append_cancel_right e)

theorem placeholder_ne_resourceRef (a b : GoString) : placeholder a ≠ resourceRef b := by
  intro e
  simp [placeholder, resourceRef] at e

theorem replacePlaceholder_eq (identifier id text : GoString)
    (h : identifier.all Char.isAlphanum = true) (hid : id.all Char.isAlphanum = true) :
    replacePlaceholder identifier (resourceRef id) text
      = some (Replace text (placeholder identifier) (resourceRef id)) := by
  obtain ⟨_, _, h3⟩ := alphanum_no_special id hid
  have hm : '$' ∉ resourceRef id := by
    simp [resourceRef, h3]
  simp [replacePlaceholder, h, hm]

theorem photoLoop_two (srv : Server) (photoA photoB : Photo) (resA resB : ResourceResponse)
    (body : GoString) (run : Run)
    (hA : photoA.Identifier.all Char.isAlphanum = true)
    (hB : photoB.Identifier.all Char.isAlphanum = true)
    (hrA : resA.ID.all Char.isAlphanum = true) (hrB : resB.ID.all Char.isAlphanum = true)
    (hupA : srv.resource run.resources = .ok resA)
    (hupB : srv.resource (run.resources + 1) = .ok resB) :
    photoLoop srv [photoA, photoB] body run
      = Outcome.done
          (Replace (Replace body (placeholder photoA.Identifier) (resourceRef resA.ID))
            (placeholder photoB.Identifier) (resourceRef resB.ID))
          { run with
            calls := run.calls ++ [Call.createResource photoA, Call.createResource photoB]
            resources := run.resources + 2 } := by
  simp [photoLoop, hupA, hupB, replacePlaceholder_eq _ _ _ hA hrA,
    replacePlaceholder_eq _ _ _ hB hrB]

theorem count_two_replacements (a b ra rb body : GoString)
    (ha : a.all Char.isAlphanum = true) (hb : b.all Char.isAlphanum = true)
    (hra : ra.all Char.isAlphanum = true) (hrb : rb.all Char.isAlphanum = true)
    (hab : a ≠ b) (hr : ra ≠ rb)
    (hfa : countOccurrences (resourceRef ra) body = 0)
    (hfb : countOccurrences (resourceRef rb) body = 0) :
    let out := Replace (Replace body (placeholder a) (resourceRef ra)) (placeholder b)
      (resourceRef rb)
    countOccurrences (placeholder a) out = 0 ∧ countOccurrences (placeholder b) out = 0 ∧
    countOccurrences (resourceRef ra) out = countOccurrences (placeholder a) body ∧
    countOccurrences (resourceRef rb) out = countOccurrences (placeholder b) body := by
  have Ba := bracketed_placeholder a ha
  have Bb := bracketed_placeholder b hb
  have Ra := bracketed_resourceRef ra hra
  have Rb := bracketed_resourceRef rb hrb
  have n1 := placeholder_ne a b hab
  have n2 := placeholder_ne b a (Ne.symm hab)
  have n3 := resourceRef_ne ra rb hr
  have n4 := resourceRef_ne rb ra (Ne.symm hr)
  have n5 := placeholder_ne_resourceRef a ra
  have n6 := placeholder_ne_resourceRef a rb
  have n7 := placeholder_ne_resourceRef b ra
  have n8 := placeholder_ne_resourceRef b rb
  intro out
  have m5 := Ne.symm n5
  have m6 := Ne.symm n6
  have m7 := Ne.symm n7
  have m8 := Ne.symm n8
  refine ⟨?_, ?_, ?_, ?_⟩
  · simp [out, count_replace _ _ _ Bb Rb Ba, count_replace _ _ _ Ba Ra Ba, n1, n5, n6]
  · simp [out, count_replace _ _ _ Bb Rb Bb, n8]
  · simp [out, count_replace _ _ _ Bb Rb Ra, count_replace _ _ _ Ba Ra Ra, n3, m5, m7, hfa]
  · simp [out, count_replace _ _ _ Bb Rb Rb, count_replace _ _ _ Ba Ra Rb,
      count_replace _ _ _ Ba Ra Bb, n4, n2, n7, m6, m8, hfb]

/-- C3, corrected: every occurrence of a placeholder is replaced, so a resource
reference occurs as often as its placeholder did.  For two photos with
different identifiers `A` and `B` of letters and digits, uploaded under
different resource ids `rA` and `rB` of letters and digits, and a body that
holds neither `![](:/rA)` nor `![](:/rB)` beforehand, the photo loop ends, in
either order of the two photos, with a body that holds no
`![](dayone-moment://A)` and no `![](dayone-moment://B)`, and as many
`![](:/rA)` as the body had `![](dayone-moment://A)` and as many `![](:/rB)`
as it had `![](dayone-moment://B)`: exactly one each when each placeholder
occurred once. -/
theorem photoLoop_replaces_placeholders (srv srv' : Server) (photoA photoB : Photo)
    (resA resB : ResourceResponse) (body : GoString) (run : Run)
    (hA : photoA.Identifier.all Char.isAlphanum = true)
    (hB : photoB.Identifier.all Char.isAlphanum = true)
    (hrA : resA.ID.all Char.isAlphanum = true) (hrB : resB.ID.all Char.isAlphanum = true)
    (hAB : photoA.Identifier ≠ photoB.Identifier) (hr : resA.ID ≠ resB.ID)
    (hfree : countOccurrences (resourceRef resA.ID) body = 0 ∧
      countOccurrences (resourceRef resB.ID) body = 0)
    (hup : srv.resource run.resources = .ok resA ∧ srv.resource (run.resources + 1) = .ok resB)
    (hup' : srv'.resource run.resources = .ok resB ∧
      srv'.resource (run.resources + 1) = .ok resA) :
    ∃ out out',
      (photoLoop srv [photoA, photoB] body run).value? = some out ∧
      (photoLoop srv' [photoB, photoA] body run).value? = some out' ∧
      countOccurrences (placeholder photoA.Identifier) out = 0 ∧
      countOccurrences (placeholder photoB.Identifier) out = 0 ∧
      countOccurrences (resourceRef resA.ID) out
        = countOccurrences (placeholder photoA.Identifier) body ∧
      countOccurrences (resourceRef resB.ID) out
        = countOccurrences (placeholder photoB.Identifier) body ∧
      countOccurrences (placeholder photoA.Identifier) out' = 0 ∧
      countOccurrences (placeholder photoB.Identifier) out' = 0 ∧
      countOccurrences (resourceRef resA.ID) out'
        = countOccurrences (placeholder photoA.Identifier) body ∧
      countOccurrences (resourceRef resB.ID) out'
        = countOccurrences (placeholder photoB.Identifier) body := by
  have h1 := photoLoop_two srv photoA photoB resA resB body run hA hB hrA hrB hup.1 hup.2
  have h2 := photoLoop_two srv' photoB photoA resB resA body run hB hA hrB hrA hup'.1 hup'.2
  obtain ⟨c1, c2, c3, c4⟩ := count_two_replacements photoA.Identifier photoB.Identifier
    resA.ID resB.ID body hA hB hrA hrB hAB hr hfree.1 hfree.2
  obtain ⟨d1, d2, d3, d4⟩ := count_two_replacements photoB.Identifier photoA.Identifier
    resB.ID resA.ID body hB hA hrB hrA (Ne.symm hAB) (Ne.symm hr) hfree.2 hfree.1
  exact ⟨_, _, by rw [h1]; rfl, by rw [h2]; rfl, c1, c2, c3, c4, d2, d1, d4, d3⟩

/-- C3, witness: the photos `A1` and `B2`, stored as `r1` and `r2`, each with
one placeholder in the body. -/
theorem photoLoop_replaces_placeholders_witness :
    countOccurrences (placeholder "A1".toList)
      "see ![](dayone-moment://A1) and ![](dayone-moment://B2).".toList = 1 ∧
    countOccurrences (placeholder "B2".toList)
      "see ![](dayone-moment://A1) and ![](dayone-moment://B2).".toList = 1 ∧
    ∃ out out',
      (photoLoop twoUploadServer [photoWith "A1", photoWith "B2"]
        "see ![](dayone-moment://A1) and ![](dayone-moment://B2).".toList Run.start).value?
          = some out ∧
      (photoLoop swappedUploadServer [photoWith "B2", photoWith "A1"]
        "see ![](dayone-moment://A1) and ![](dayone-moment://B2).".toList Run.start).value?
          = some out' ∧
      countOccurrences (placeholder (photoWith "A1").Identifier) out = 0 ∧
      countOccurrences (placeholder (photoWith "B2").Identifier) out = 0 ∧
      countOccurrences (resourceRef (resourceWith "r1").ID) out
        = countOccurrences (placeholder (photoWith "A1").Identifier)
            "see ![](dayone-moment://A1) and ![](dayone-moment://B2).".toList ∧
      countOccurrences (resourceRef (resourceWith "r2").ID) out
        = countOccurrences (placeholder (photoWith "B2").Identifier)
            "see ![](dayone-moment://A1) and ![](dayone-moment://B2).".toList ∧
      countOccurrences (placeholder (photoWith "A1").Identifier) out' = 0 ∧
      countOccurrences (placeholder (photoWith "B2").Identifier) out' = 0 ∧
      countOccurrences (resourceRef (resourceWith "r1").ID) out'
        = countOccurrences (placeholder (photoWith "A1").Identifier)
            "see ![](dayone-moment://A1) and ![](dayone-moment://B2).".toList ∧
      countOccurrences (resourceRef (resourceWith "r2").ID) out'
        = countOccurrences (placeholder (photoWith "B2").Identifier)
            "see ![](dayone-moment://A1) and ![](dayone-moment://B2).".toList :=
  ⟨by decide, by decide,
    photoLoop_replaces_placeholders twoUploadServer swappedUploadServer (photoWith "A1")
      (photoWith "B2") (resourceWith "r1") (resourceWith "r2")
      "see ![](dayone-moment://A1) and ![](dayone-moment://B2).".toList Run.start
      (by decide) (by decide) (by decide) (by decide) (by decide) (by decide)
      ⟨by decide, by decide⟩ ⟨rfl, rfl⟩ ⟨rfl, rfl⟩⟩

/-- C3, counterexample: the placeholder of photo `A1` stands twice in the
body, that of `B2` once; the body left by the photo loop holds the reference
`![](:/r1)` twice, not once. -/
theorem photoLoop_placeholder_twice :
    countOccurrences (placeholder "A1".toList)
      "![](dayone-moment://A1)![](dayone-moment://A1)![](dayone-moment://B2)".toList = 2 ∧
    countOccurrences (placeholder "B2".toList)
      "![](dayone-moment://A1)![](dayone-moment://A1)![](dayone-moment://B2)".toList = 1 ∧
    (photoLoop twoUploadServer [photoWith "A1", photoWith "B2"]
      "![](dayone-moment://A1)![](dayone-moment://A1)![](dayone-moment://B2)".toList
        Run.start).value? = some "![](:/r1)![](:/r1)![](:/r2)".toList ∧
    countOccurrences (resourceRef "r1".toList) "![](:/r1)![](:/r1)![](:/r2)".toList = 2 := by
  refine ⟨by decide, by decide, by rfl, by decide⟩

end DayoneToJoplin
